import Mathlib

/-!
Verification of the TeamCity output sink of cppcheck
(`cli/teamcityoutput.h`, `cli/teamcityoutput.cpp`).

The development embeds the escaper (`TeamCityOutput::serviceMessageEscape`),
the two `formatServiceMessage` overloads, and the stateful reporting
operations `reportProgress` and `reportErr`.  `std::map<std::string,
std::string>` is embedded as a key-sorted association list with the
lexicographic string order used by `std::less<std::string>`;
`std::set<std::string>` (the duplicate-error filter) is embedded as a list
with membership-guarded insertion.  Emission to the output stream is
embedded as the list of lines a call appends.
-/

/-- The single-quote character `'`. -/
def squoteChar : Char := Char.ofNat 39

/-- The single-quote character as a one-character string. -/
def quoteStr : String := String.mk [squoteChar]

/-- Membership in the reserved set `"'\n\r[]|"` handed to
`find_first_of` in `TeamCityOutput::serviceMessageEscape`
(teamcityoutput.cpp line 151). -/
def isReservedChar (c : Char) : Bool :=
  c = squoteChar || c = '\n' || c = '\r' || c = '[' || c = ']' || c = '|'

/-- Embedding of the scanning loop of `TeamCityOutput::serviceMessageEscape`
(teamcityoutput.cpp lines 151-159): the loop finds the next character of the
reserved set, rewrites `\n` to `n` and `\r` to `r`, inserts `|` in front of
it and resumes two positions further, i.e. right after the inserted pair, so
the inserted `|` is never re-matched.  Characters outside the reserved set
are passed through. -/
def escList : List Char → List Char
  | [] => []
  | c :: cs =>
    if c = '\n' then '|' :: 'n' :: escList cs
    else if c = '\r' then '|' :: 'r' :: escList cs
    else if c = squoteChar || c = '[' || c = ']' || c = '|' then '|' :: c :: escList cs
    else c :: escList cs

/-- `TeamCityOutput::serviceMessageEscape` (teamcityoutput.cpp lines 139-161). -/
def TeamCityOutput.serviceMessageEscape (str : String) : String :=
  String.mk (escList str.data)

/-- The per-character escape mapping in the words of the spec (§4.1): a
newline becomes `|n`, a carriage return becomes `|r`, the remaining reserved
characters become `|` followed by the character unchanged, and everything
else passes through.  Used to compare the implementation against the spec's
description. -/
def escCharSpec (c : Char) : List Char :=
  if c = '\n' then ['|', 'n']
  else if c = '\r' then ['|', 'r']
  else if isReservedChar c then ['|', c]
  else [c]

/-- Second character of an escape pair: the characters that may follow the
escape marker `|` in well-formed escaper output. -/
def isEscapePayload (c : Char) : Bool :=
  c = squoteChar || c = '[' || c = ']' || c = '|' || c = 'n' || c = 'r'

/-- Well-formedness of an escaped string, in the words of the spec (§8): no
bare occurrence of `'`, `[`, `]`, `|`, raw `\n` or raw `\r` outside the
two-character sequences `|'`, `|[`, `|]`, `||`, `|n`, `|r`. -/
def wellEscaped : List Char → Bool
  | [] => true
  | c :: rest =>
    if c = '|' then
      match rest with
      | [] => false
      | d :: rest₂ => isEscapePayload d && wellEscaped rest₂
    else
      !(isReservedChar c) && wellEscaped rest

lemma escList_append (l₁ l₂ : List Char) :
    escList (l₁ ++ l₂) = escList l₁ ++ escList l₂ := by
  induction l₁ with
  | nil => simp [escList]
  | cons c cs ih =>
    simp only [List.cons_append, escList]
    split_ifs <;> simp [ih]

lemma escList_eq_flatten_escCharSpec (l : List Char) :
    escList l = (l.map escCharSpec).flatten := by
  induction l with
  | nil => simp [escList]
  | cons c cs ih =>
    simp only [List.map_cons, List.flatten_cons, escList, escCharSpec, isReservedChar]
    split_ifs with h₁ h₂ h₃ <;> simp_all

lemma wellEscaped_escList (l : List Char) : wellEscaped (escList l) = true := by
  induction l with
  | nil => rfl
  | cons c cs ih =>
    simp only [escList]
    split_ifs with h₁ h₂ h₃
    · simp [wellEscaped, isEscapePayload, ih]
    · simp [wellEscaped, isEscapePayload, ih]
    · have h₃' : c = squoteChar ∨ c = '[' ∨ c = ']' ∨ c = '|' := by
        simpa [or_assoc] using h₃
      rcases h₃' with h | h | h | h <;> subst h <;>
        simp [wellEscaped, isEscapePayload, ih]
    · have hcases := h₃
      simp only [Bool.or_eq_true, decide_eq_true_eq, not_or] at hcases
      obtain ⟨⟨⟨hq, hb₁⟩, hb₂⟩, hp⟩ := hcases
      cases hesc : escList cs with
      | nil => simp [wellEscaped, hp, isReservedChar, h₁, h₂, hq, hb₁, hb₂]
      | cons d rest =>
        rw [hesc] at ih
        simp [wellEscaped, hp, isReservedChar, h₁, h₂, hq, hb₁, hb₂, ih]

lemma length_escList (l : List Char) :
    (escList l).length = l.length + l.countP (fun c => isReservedChar c) := by
  induction l with
  | nil => rfl
  | cons c cs ih =>
    simp only [escList, List.countP_cons, isReservedChar]
    split_ifs with h₁ h₂ h₃ <;> simp_all [isReservedChar] <;> omega

lemma pipe_mem_escList (l : List Char) (c : Char) (hc : c ∈ l)
    (hres : isReservedChar c = true) : '|' ∈ escList l := by
  induction l with
  | nil => simp at hc
  | cons a as ih =>
    simp only [escList]
    rcases List.mem_cons.mp hc with h | h
    · subst h
      simp only [isReservedChar, Bool.or_eq_true, decide_eq_true_eq] at hres
      split_ifs <;> simp_all
    · split_ifs <;> simp [ih h]

/-- Lexicographic comparison of character lists, as `std::less<std::string>`
compares `std::string` keys inside `std::map`. -/
def lexLt : List Char → List Char → Bool
  | [], [] => false
  | [], _ :: _ => true
  | _ :: _, [] => false
  | a :: as, b :: bs => if a < b then true else if b < a then false else lexLt as bs

/-- The strict order on map keys used by `std::map<std::string, std::string>`. -/
def strLt (a b : String) : Bool := lexLt a.data b.data

lemma lexLt_irrefl (l : List Char) : lexLt l l = false := by
  induction l with
  | nil => rfl
  | cons a as ih => simp [lexLt, ih, lt_irrefl]

lemma lexLt_asymm (l₁ l₂ : List Char) (h : lexLt l₁ l₂ = true) : lexLt l₂ l₁ = false := by
  induction l₁ generalizing l₂ with
  | nil =>
    cases l₂ with
    | nil => simp [lexLt] at h
    | cons b bs => simp [lexLt]
  | cons a as ih =>
    cases l₂ with
    | nil => simp [lexLt] at h
    | cons b bs =>
      simp only [lexLt] at h ⊢
      rcases lt_trichotomy a b with hab | hab | hab
      · simp [hab, asymm hab, lt_irrefl]
      · subst hab
        simp only [lt_irrefl, if_false] at h ⊢
        exact ih bs h
      · simp [hab, asymm hab] at h

lemma lexLt_trans (l₁ l₂ l₃ : List Char) (h₁ : lexLt l₁ l₂ = true)
    (h₂ : lexLt l₂ l₃ = true) : lexLt l₁ l₃ = true := by
  induction l₁ generalizing l₂ l₃ with
  | nil =>
    cases l₃ with
    | nil =>
      cases l₂ with
      | nil => exact h₁
      | cons b bs => simp [lexLt] at h₂
    | cons c cs => simp [lexLt]
  | cons a as ih =>
    cases l₂ with
    | nil => simp [lexLt] at h₁
    | cons b bs =>
      cases l₃ with
      | nil => simp [lexLt] at h₂
      | cons c cs =>
        simp only [lexLt] at h₁ h₂ ⊢
        rcases lt_trichotomy a b with hab | hab | hab
        · rcases lt_trichotomy b c with hbc | hbc | hbc
          · simp [lt_trans hab hbc]
          · subst hbc; simp [hab]
          · simp [hbc, asymm hbc] at h₂
        · subst hab
          simp only [lt_irrefl, if_false] at h₁
          rcases lt_trichotomy a c with hbc | hbc | hbc
          · simp [hbc]
          · subst hbc
            simp only [lt_irrefl, if_false] at h₂ ⊢
            exact ih bs cs h₁ h₂
          · simp [hbc, asymm hbc] at h₂
        · simp [hab, asymm hab] at h₁

lemma lexLt_eq_of_not_lt (l₁ l₂ : List Char) (h₁ : lexLt l₁ l₂ = false)
    (h₂ : lexLt l₂ l₁ = false) : l₁ = l₂ := by
  induction l₁ generalizing l₂ with
  | nil =>
    cases l₂ with
    | nil => rfl
    | cons b bs => simp [lexLt] at h₁
  | cons a as ih =>
    cases l₂ with
    | nil => simp [lexLt] at h₂
    | cons b bs =>
      simp only [lexLt] at h₁ h₂
      rcases lt_trichotomy a b with hab | hab | hab
      · simp [hab] at h₁
      · subst hab
        simp only [lt_irrefl, if_false] at h₁ h₂
        rw [ih bs h₁ h₂]
      · simp [hab, asymm hab] at h₂

lemma strLt_irrefl (a : String) : strLt a a = false := lexLt_irrefl a.data

lemma strLt_trans (a b c : String) (h₁ : strLt a b = true) (h₂ : strLt b c = true) :
    strLt a c = true := lexLt_trans a.data b.data c.data h₁ h₂

lemma strLt_eq_of_not_lt (a b : String) (h₁ : strLt a b = false)
    (h₂ : strLt b a = false) : a = b := by
  cases a with
  | mk da =>
    cases b with
    | mk db => exact congrArg String.mk (lexLt_eq_of_not_lt da db h₁ h₂)

/-- Association list standing for `std::map<std::string, std::string>`:
entries kept strictly sorted by key in the `std::less` order. -/
abbrev StrMap := List (String × String)

/-- Assignment `m[k] = v` on the embedded `std::map`: insertion into the
key-sorted list, overwriting the value when the key is present. -/
def mapInsert (k v : String) : StrMap → StrMap
  | [] => [(k, v)]
  | (k₁, v₁) :: rest =>
    if strLt k k₁ then (k, v) :: (k₁, v₁) :: rest
    else if strLt k₁ k then (k₁, v₁) :: mapInsert k v rest
    else (k₁, v) :: rest

/-- Lookup in the embedded `std::map`. -/
def mapFind? (k : String) : StrMap → Option String
  | [] => none
  | (k₁, v₁) :: rest => if k = k₁ then some v₁ else mapFind? k rest

/-- Read access `m[k]` on the embedded map where the key is known to be
present (C++ `operator[]` would default-construct an empty string
otherwise, so the absent case yields `""`). -/
def mapFind (k : String) (m : StrMap) : String := (mapFind? k m).getD ""

/-- The keys of the embedded map are strictly ascending in the
`std::less<std::string>` order. -/
def mapSorted (m : StrMap) : Prop :=
  List.Pairwise (fun p q => strLt p.1 q.1 = true) m

lemma mem_mapInsert (k v : String) (m : StrMap) (x : String × String)
    (hx : x ∈ mapInsert k v m) : x.1 = k ∨ x ∈ m := by
  induction m with
  | nil => simp only [mapInsert, List.mem_singleton] at hx; simp [hx]
  | cons p rest ih =>
    obtain ⟨k₁, v₁⟩ := p
    simp only [mapInsert] at hx
    split_ifs at hx with h₁ h₂
    · rcases List.mem_cons.mp hx with h | h
      · simp [h]
      · simp [h]
    · rcases List.mem_cons.mp hx with h | h
      · simp [h]
      · rcases ih h with h' | h' <;> simp [h']
    · have hk : k₁ = k := strLt_eq_of_not_lt k₁ k
        (by simpa using h₂) (by simpa using h₁)
      rcases List.mem_cons.mp hx with h | h
      · subst h; simp [hk]
      · simp [h]

lemma mapSorted_insert (k v : String) (m : StrMap) (hm : mapSorted m) :
    mapSorted (mapInsert k v m) := by
  induction m with
  | nil => simp [mapInsert, mapSorted]
  | cons p rest ih =>
    obtain ⟨k₁, v₁⟩ := p
    simp only [mapSorted, List.pairwise_cons] at hm
    obtain ⟨hall, hrest⟩ := hm
    simp only [mapInsert]
    split_ifs with h₁ h₂
    · constructor
      · intro q hq
        rcases List.mem_cons.mp hq with h | h
        · subst h; exact h₁
        · exact strLt_trans _ _ _ h₁ (hall q h)
      · exact List.Pairwise.cons hall hrest
    · constructor
      · intro q hq
        rcases mem_mapInsert k v rest q hq with h | h
        · rw [h]; exact h₂
        · exact hall q h
      · exact ih hrest
    · have hk : k₁ = k := strLt_eq_of_not_lt k₁ k
        (by simpa using h₂) (by simpa using h₁)
      exact List.Pairwise.cons hall hrest

lemma mapFind?_insert (k k₁ v : String) (m : StrMap) :
    mapFind? k (mapInsert k₁ v m) =
      if k = k₁ then some v else mapFind? k m := by
  induction m with
  | nil => simp [mapInsert, mapFind?]
  | cons p rest ih =>
    obtain ⟨k₂, v₂⟩ := p
    by_cases h₁ : strLt k₁ k₂ = true
    · rw [show mapInsert k₁ v ((k₂, v₂) :: rest) = (k₁, v) :: (k₂, v₂) :: rest from by
        simp [mapInsert, h₁]]
      by_cases hk : k = k₁ <;> simp [mapFind?, hk]
    · by_cases h₂ : strLt k₂ k₁ = true
      · rw [show mapInsert k₁ v ((k₂, v₂) :: rest) = (k₂, v₂) :: mapInsert k₁ v rest from by
          simp [mapInsert, h₁, h₂]]
        by_cases hk₂ : k = k₂
        · subst hk₂
          have hne : ¬ k = k₁ := by
            intro h; subst h; simp [strLt_irrefl] at h₂
          simp [mapFind?, hne]
        · simp [mapFind?, hk₂, ih]
      · have hk : k₂ = k₁ := strLt_eq_of_not_lt k₂ k₁
          (by simpa using h₂) (by simpa using h₁)
        subst hk
        rw [show mapInsert k₂ v ((k₂, v₂) :: rest) = (k₂, v) :: rest from by
          simp [mapInsert, strLt_irrefl]]
        by_cases hk₂ : k = k₂ <;> simp [mapFind?, hk₂]

/-- `Severity::SeverityType` as used by the sink (errorlogger.h). -/
inductive Severity where
  | none
  | error
  | warning
  | style
  | performance
  | portability
  | information
  | debug
deriving DecidableEq

/-- `Severity::toString`, used only inside the modelled canonical
serialization below. -/
def Severity.toName : Severity → String
  | .none => "none"
  | .error => "error"
  | .warning => "warning"
  | .style => "style"
  | .performance => "performance"
  | .portability => "portability"
  | .information => "information"
  | .debug => "debug"

/-- The fields of `Settings` that `TeamCityOutput` reads: the `verbose`
flag and the base paths for relative-path computation. -/
structure Settings where
  verbose : Bool
  basePaths : List String
deriving DecidableEq

/-- `ErrorLogger::ErrorMessage::FileLocation` as read by the sink: a file
name plus numeric line and column. -/
structure FileLocation where
  file : String
  line : Nat
  col : Nat
deriving DecidableEq

/-- Modelled from the spec: `FileLocation::getfile` is not part of the
repository sources; per §4.3.3 the `file` attribute is "the primary frame's
file", so the accessor returns the frame's file name. -/
def FileLocation.getfile (loc : FileLocation) : String := loc.file

/-- `ErrorLogger::ErrorMessage` as read by the sink: identity (`_id`),
short and verbose messages, the call stack of location frames, the
top-level fallback file `file0`, the CWE classifier id (`_cwe.id`, zero
meaning absent), the `_inconclusive` flag and the `_severity`. -/
structure ErrorMessage where
  id : String
  shortMessage : String
  verboseMessage : String
  callStack : List FileLocation
  file0 : String
  cweId : Nat
  inconclusive : Bool
  severity : Severity
deriving DecidableEq

/-- Modelled from the spec: `ErrorLogger::ErrorMessage::serialize` is not
part of the repository sources; §4.3.3 and the glossary require a
deterministic, content-complete canonical serialization covering kind,
messages, location frames, severity, inconclusive flag and classifier
code.  Fields are concatenated with newline separators (a character that
cannot occur unescaped inside the other fields' roles for dedup purposes
is not required: determinism and content-completeness are). -/
def ErrorMessage.serialize (msg : ErrorMessage) : String :=
  msg.id ++ "\n" ++ msg.shortMessage ++ "\n" ++ msg.verboseMessage ++ "\n" ++
    msg.severity.toName ++ "\n" ++ toString msg.cweId ++ "\n" ++
    (if msg.inconclusive then "1" else "0") ++ "\n" ++ msg.file0 ++ "\n" ++
    String.join (msg.callStack.map fun loc =>
      loc.file ++ ":" ++ toString loc.line ++ ":" ++ toString loc.col ++ "\n")

/-- Modelled from the spec: `Path::fromNativeSeparators` is not part of the
repository sources; §4.3.3 requires path separators to be normalized to
the forward-slash convention, i.e. every backslash becomes a slash. -/
def Path.fromNativeSeparators (path : String) : String :=
  String.mk (path.data.map fun c => if c = '\\' then '/' else c)

/-- Modelled from the spec: `Path::isAbsolute` is not part of the
repository sources; after normalization to forward slashes an absolute
path is one that starts at the filesystem root. -/
def Path.isAbsolute (path : String) : Bool := List.isPrefixOf ['/'] path.data

/-- Modelled from the spec: `Path::getRelativePath` is not part of the
repository sources; §4.3.3 requires an absolute path to be rewritten
relative to the configured list of base directories, so the first base
directory that is a proper path prefix is stripped. -/
def Path.getRelativePath (path : String) (basePaths : List String) : String :=
  match basePaths.find? (fun base => List.isPrefixOf (base.data ++ ['/']) path.data) with
  | some base => String.mk (path.data.drop (base.data.length + 1))
  | none => path

/-- The mutable state of a `TeamCityOutput` instance (teamcityoutput.h
lines 85-95): the last progress pair and the duplicate-error filter.
The constructor default-initializes all three members. -/
structure TeamCityOutput.State where
  latestProgressFile : String := ""
  latestProgressStage : String := ""
  errorList : List String := []
deriving DecidableEq

/-- The state of a freshly constructed `TeamCityOutput`. -/
def TeamCityOutput.initState : TeamCityOutput.State := {}

/-- `TeamCityOutput::formatServiceMessage` map overload (teamcityoutput.cpp
lines 163-172): stream `##teamcity[`, the message name, then for each map
entry a space, the key, `='`, the escaped value and `'`, then `]`. -/
def TeamCityOutput.formatServiceMessageMap (messageName : String) (values : StrMap) : String :=
  values.foldl
    (fun ss value =>
      ss ++ " " ++ value.1 ++ "=" ++ quoteStr ++
        TeamCityOutput.serviceMessageEscape value.2 ++ quoteStr)
    ("##teamcity[" ++ messageName) ++ "]"

/-- `TeamCityOutput::formatServiceMessage` single-value overload
(teamcityoutput.cpp lines 174-179). -/
def TeamCityOutput.formatServiceMessageValue (messageName value : String) : String :=
  "##teamcity[" ++ messageName ++ " " ++ quoteStr ++
    TeamCityOutput.serviceMessageEscape value ++ quoteStr ++ "]"

/-- `TeamCityOutput::reportOut` (teamcityoutput.cpp lines 36-39); the
returned list holds the lines written to the output stream. -/
def TeamCityOutput.reportOut (outmsg : String) : List String :=
  [TeamCityOutput.formatServiceMessageMap "message" (mapInsert "text" outmsg []) ++ "\n"]

/-- `TeamCityOutput::reportProgress` (teamcityoutput.cpp lines 41-51): a
new stage or file updates the stored pair and emits one `progressMessage`
line; a repeat of the stored pair is a no-op.  The numeric `value`
parameter is unnamed in the C++ signature and unused. -/
def TeamCityOutput.reportProgress (st : TeamCityOutput.State) (filename : String)
    (stage : String) (_value : Nat) : TeamCityOutput.State × List String :=
  if st.latestProgressFile = filename ∧ st.latestProgressStage = stage then
    (st, [])
  else
    ({ st with latestProgressFile := filename, latestProgressStage := stage },
     [TeamCityOutput.formatServiceMessageValue "progressMessage"
        ("inspecting " ++ quoteStr ++ filename ++ quoteStr ++ " stage: " ++ stage) ++ "\n"])

/-- The `SEVERITY` attribute computed by the `switch` in
`TeamCityOutput::reportErr` (teamcityoutput.cpp lines 90-109): `none` and
the `default` case set no attribute. -/
def severityAttr : Severity → Option String
  | .error => Option.some "ERROR"
  | .warning => Option.some "WARNING"
  | .information => Option.some "INFO"
  | .debug => Option.some "INFO"
  | .style => Option.some "INFO"
  | .performance => Option.some "WEAK WARNING"
  | .portability => Option.some "WEAK WARNING"
  | .none => Option.none

/-- The attribute map built by `TeamCityOutput::reportErr` up to the
file-path normalization (teamcityoutput.cpp lines 60-76): `typeId`,
`message`, the location attributes from the primary stack entry (or the
fallback `file0` when the call stack is empty), and the optional `cwe`
and `inconclusive` attributes. -/
def TeamCityOutput.inspectionValuesRaw (settings : Settings) (msg : ErrorMessage) : StrMap :=
  let values := mapInsert "typeId" msg.id []
  let values := mapInsert "message"
    (if settings.verbose then msg.verboseMessage else msg.shortMessage) values
  let values :=
    match msg.callStack with
    | [] => mapInsert "file" msg.file0 values
    | stackEntry :: _ =>
      mapInsert "column" (toString stackEntry.col)
        (mapInsert "line" (toString stackEntry.line)
          (mapInsert "file" stackEntry.getfile values))
  let values := if msg.cweId ≠ 0 then mapInsert "cwe" (toString msg.cweId) values else values
  if msg.inconclusive then mapInsert "inconclusive" "true" values else values

/-- The attribute map after the file-path normalization step
(teamcityoutput.cpp lines 77-88): an empty file becomes the sentinel
`<cppcheck>`; otherwise separators are normalized, an absolute path is
made relative to the configured base paths, and `./` is prefixed. -/
def TeamCityOutput.inspectionValuesBase (settings : Settings) (msg : ErrorMessage) : StrMap :=
  let values := TeamCityOutput.inspectionValuesRaw settings msg
  if mapFind "file" values = "" then
    mapInsert "file" "<cppcheck>" values
  else
    let f := Path.fromNativeSeparators (mapFind "file" values)
    let f := if Path.isAbsolute f then Path.getRelativePath f settings.basePaths else f
    mapInsert "file" ("./" ++ f) values

/-- The complete attribute map built by `TeamCityOutput::reportErr`
(teamcityoutput.cpp lines 60-109) for a non-duplicate message: the
normalized map plus the `SEVERITY` attribute from the severity switch,
absent for `Severity::none` and the `default` case. -/
def TeamCityOutput.inspectionValues (settings : Settings) (msg : ErrorMessage) : StrMap :=
  match severityAttr msg.severity with
  | Option.some sv =>
    mapInsert "SEVERITY" sv (TeamCityOutput.inspectionValuesBase settings msg)
  | Option.none => TeamCityOutput.inspectionValuesBase settings msg

/-- `TeamCityOutput::reportErr` (teamcityoutput.cpp lines 53-111): a
message whose canonical serialization is already in `_errorList` is
dropped; otherwise the serialization is recorded and one `inspection`
line is emitted. -/
def TeamCityOutput.reportErr (settings : Settings) (st : TeamCityOutput.State)
    (msg : ErrorMessage) : TeamCityOutput.State × List String :=
  let serializedMsg := msg.serialize
  if serializedMsg ∈ st.errorList then
    (st, [])
  else
    ({ st with errorList := serializedMsg :: st.errorList },
     [TeamCityOutput.formatServiceMessageMap "inspection"
        (TeamCityOutput.inspectionValues settings msg) ++ "\n"])

/-- Run a sequence of `reportErr` calls on one sink instance, collecting
all emitted lines in order. -/
def TeamCityOutput.runErr (settings : Settings) (st : TeamCityOutput.State) :
    List ErrorMessage → TeamCityOutput.State × List String
  | [] => (st, [])
  | msg :: rest =>
    let out₁ := TeamCityOutput.reportErr settings st msg
    let out₂ := TeamCityOutput.runErr settings out₁.1 rest
    (out₂.1, out₁.2 ++ out₂.2)

/-- Run a sequence of `reportProgress` calls on one sink instance,
collecting all emitted lines in order. -/
def TeamCityOutput.runProgress (st : TeamCityOutput.State) :
    List (String × String × Nat) → TeamCityOutput.State × List String
  | [] => (st, [])
  | call :: rest =>
    let out₁ := TeamCityOutput.reportProgress st call.1 call.2.1 call.2.2
    let out₂ := TeamCityOutput.runProgress out₁.1 rest
    (out₂.1, out₁.2 ++ out₂.2)

/-- C1: `serviceMessageEscape` equals the left-to-right per-character
mapping of the spec — `\n` becomes `|n`, `\r` becomes `|r`, the remaining
reserved characters `' [ ] |` get `|` prefixed and pass otherwise
unchanged, every other character passes through, the scan never re-matches
an inserted `|` — and on the spec's instances: `escape("") = ""`,
`escape("a'b") = "a|'b"`, `escape("x\ny") = "x|ny"`,
`escape("a|b") = "a||b"`. -/
theorem serviceMessageEscape_matches_spec :
    (∀ s : String, TeamCityOutput.serviceMessageEscape s =
      String.mk (s.data.map escCharSpec).flatten) ∧
    TeamCityOutput.serviceMessageEscape "" = "" ∧
    TeamCityOutput.serviceMessageEscape (String.mk ['a', squoteChar, 'b']) =
      String.mk ['a', '|', squoteChar, 'b'] ∧
    TeamCityOutput.serviceMessageEscape "x\ny" = "x|ny" ∧
    TeamCityOutput.serviceMessageEscape "a|b" = "a||b" := by
  refine ⟨fun s => ?_, by decide, by decide, by decide, by decide⟩
  rw [TeamCityOutput.serviceMessageEscape, escList_eq_flatten_escCharSpec]

/-- C2: every output of `serviceMessageEscape` is well escaped — it
contains no bare `'`, `[`, `]`, `|` and no raw newline or carriage return
outside the two-character escape sequences `|'`, `|[`, `|]`, `||`, `|n`,
`|r` the function introduces. -/
theorem serviceMessageEscape_wellEscaped (s : String) :
    wellEscaped (TeamCityOutput.serviceMessageEscape s).data = true :=
  wellEscaped_escList s.data

/-- C9: `serviceMessageEscape` is not idempotent: on any string containing
a character of the reserved set — in particular on `"'"` — escaping twice
double-escapes, so the second application changes the string again. -/
theorem serviceMessageEscape_not_idempotent (s : String)
    (h : ∃ c ∈ s.data, isReservedChar c = true) :
    TeamCityOutput.serviceMessageEscape (TeamCityOutput.serviceMessageEscape s) ≠
      TeamCityOutput.serviceMessageEscape s := by
  obtain ⟨c, hc, hres⟩ := h
  have hpipe : '|' ∈ escList s.data := pipe_mem_escList s.data c hc hres
  have hcount : 0 < (escList s.data).countP (fun c => isReservedChar c) :=
    List.countP_pos_iff.mpr ⟨'|', hpipe, by decide⟩
  intro heq
  have hlen : (escList (escList s.data)).length = (escList s.data).length := by
    have hdata := congrArg (fun t : String => t.data.length) heq
    simpa [TeamCityOutput.serviceMessageEscape] using hdata
  rw [length_escList (escList s.data)] at hlen
  omega

/-- Witness for C9 at the concrete input `"'"`. -/
theorem serviceMessageEscape_not_idempotent_witness :
    (∃ c ∈ quoteStr.data, isReservedChar c = true) ∧
    TeamCityOutput.serviceMessageEscape (TeamCityOutput.serviceMessageEscape quoteStr) ≠
      TeamCityOutput.serviceMessageEscape quoteStr :=
  ⟨⟨squoteChar, by decide, by decide⟩,
    serviceMessageEscape_not_idempotent quoteStr ⟨squoteChar, by decide, by decide⟩⟩

/-- C6: the single-value overload returns exactly
`##teamcity[<name> '<escape(value)>']` for every name and every value,
appends no trailing newline (the last character is always `]`), and
`formatMessage("message", "hi") = "##teamcity[message 'hi']"`. -/
theorem formatServiceMessageValue_spec :
    (∀ messageName value : String,
      TeamCityOutput.formatServiceMessageValue messageName value =
        "##teamcity[" ++ messageName ++ " " ++ quoteStr ++
          TeamCityOutput.serviceMessageEscape value ++ quoteStr ++ "]" ∧
      (TeamCityOutput.formatServiceMessageValue messageName value).data.getLast? =
        some ']') ∧
    TeamCityOutput.formatServiceMessageValue "message" "hi" =
      "##teamcity[message " ++ quoteStr ++ "hi" ++ quoteStr ++ "]" := by
  refine ⟨fun messageName value => ⟨rfl, ?_⟩, by decide⟩
  show (("##teamcity[" ++ messageName ++ " " ++ quoteStr ++
    TeamCityOutput.serviceMessageEscape value ++ quoteStr) ++ "]").data.getLast? = some ']'
  rw [String.data_append]
  exact List.getLast?_concat _

/-- The string a map entry contributes to a service message line:
space, key, `='`, escaped value, `'`. -/
def pairsConcat : StrMap → String
  | [] => ""
  | value :: rest =>
    " " ++ value.1 ++ "=" ++ quoteStr ++
      TeamCityOutput.serviceMessageEscape value.2 ++ quoteStr ++ pairsConcat rest

lemma foldl_attrPairs (m : StrMap) (init : String) :
    m.foldl
      (fun ss value =>
        ss ++ " " ++ value.1 ++ "=" ++ quoteStr ++
          TeamCityOutput.serviceMessageEscape value.2 ++ quoteStr)
      init = init ++ pairsConcat m := by
  induction m generalizing init with
  | nil => simp [pairsConcat]
  | cons v rest ih =>
    simp only [List.foldl_cons, ih, pairsConcat]
    simp [String.append_assoc]

lemma mapSorted_foldl (ins : List (String × String)) (acc : StrMap)
    (hacc : mapSorted acc) :
    mapSorted (ins.foldl (fun acc kv => mapInsert kv.1 kv.2 acc) acc) := by
  induction ins generalizing acc with
  | nil => exact hacc
  | cons kv rest ih => exact ih _ (mapSorted_insert kv.1 kv.2 acc hacc)

lemma formatServiceMessageMap_getLast (messageName : String) (m : StrMap) :
    (TeamCityOutput.formatServiceMessageMap messageName m).data.getLast? = some ']' := by
  simp only [TeamCityOutput.formatServiceMessageMap]
  rw [String.data_append]
  exact List.getLast?_concat _

/-- C5: for every message name and every `std::map` (i.e. any mapping
built by a sequence of `operator[]` assignments), the map overload
returns `##teamcity[<name>` followed by one ` key='escape(value)'`
fragment per attribute and a closing `]`; the entries stand in the map's
strictly ascending lexicographic key order, the result is the same across
calls with the same input (the formatter is a pure function of its
arguments), and no trailing newline is appended (the last character is
always `]`). -/
theorem formatServiceMessageMap_spec (messageName : String)
    (ins : List (String × String)) :
    TeamCityOutput.formatServiceMessageMap messageName
        (ins.foldl (fun acc kv => mapInsert kv.1 kv.2 acc) []) =
      "##teamcity[" ++ messageName ++
        pairsConcat (ins.foldl (fun acc kv => mapInsert kv.1 kv.2 acc) []) ++ "]" ∧
    mapSorted (ins.foldl (fun acc kv => mapInsert kv.1 kv.2 acc) []) ∧
    (TeamCityOutput.formatServiceMessageMap messageName
        (ins.foldl (fun acc kv => mapInsert kv.1 kv.2 acc) [])).data.getLast? =
      some ']' := by
  refine ⟨?_, mapSorted_foldl ins [] (by simp [mapSorted]), ?_⟩
  · simp only [TeamCityOutput.formatServiceMessageMap, foldl_attrPairs]
  · exact formatServiceMessageMap_getLast messageName _

/-- C10: in both overloads only attribute values (and the single-value
payload) pass through the escaper: the message name and the attribute
keys land in the output verbatim — reserved characters in them are left
unescaped, as the `a|b` name and `k[]` key instances show — and an
attribute whose value is the empty string is still emitted as `key=''`
rather than dropped. -/
theorem formatServiceMessage_name_keys_verbatim :
    (∀ messageName k v : String,
      TeamCityOutput.formatServiceMessageMap messageName [(k, v)] =
        "##teamcity[" ++ messageName ++ " " ++ k ++ "=" ++ quoteStr ++
          TeamCityOutput.serviceMessageEscape v ++ quoteStr ++ "]") ∧
    (∀ messageName k : String,
      TeamCityOutput.formatServiceMessageMap messageName [(k, "")] =
        "##teamcity[" ++ messageName ++ " " ++ k ++ "=" ++ quoteStr ++ quoteStr ++ "]") ∧
    TeamCityOutput.formatServiceMessageValue "a|b" "" =
      "##teamcity[a|b " ++ quoteStr ++ quoteStr ++ "]" ∧
    TeamCityOutput.formatServiceMessageMap "inspection" [("k[]", "v")] =
      "##teamcity[inspection k[]=" ++ quoteStr ++ "v" ++ quoteStr ++ "]" := by
  refine ⟨fun messageName k v => rfl, fun messageName k => ?_, by decide, by decide⟩
  show ("##teamcity[" ++ messageName) ++ " " ++ k ++ "=" ++ quoteStr ++
      TeamCityOutput.serviceMessageEscape "" ++ quoteStr ++ "]" =
    "##teamcity[" ++ messageName ++ " " ++ k ++ "=" ++ quoteStr ++ quoteStr ++ "]"
  rw [show TeamCityOutput.serviceMessageEscape "" = "" from rfl, String.append_empty]

/-- C4: per `reportProgress` call on one sink instance: a call whose
`(subject, stage)` pair equals the stored last-emitted pair is a no-op;
otherwise the stored pair is updated to this one and exactly one
newline-terminated `formatMessage("progressMessage", "inspecting
'<subject>' stage: <stage>")` line is emitted, independent of the numeric
`value` argument; consequently the same pair twice in a row yields one
line and a change in either subject or stage yields a new line. -/
theorem reportProgress_spec :
    (∀ (st : TeamCityOutput.State) (filename stage : String) (value : Nat),
      (st.latestProgressFile = filename ∧ st.latestProgressStage = stage →
        TeamCityOutput.reportProgress st filename stage value = (st, [])) ∧
      (¬ (st.latestProgressFile = filename ∧ st.latestProgressStage = stage) →
        TeamCityOutput.reportProgress st filename stage value =
          ({ st with latestProgressFile := filename, latestProgressStage := stage },
           [TeamCityOutput.formatServiceMessageValue "progressMessage"
              ("inspecting " ++ quoteStr ++ filename ++ quoteStr ++ " stage: " ++ stage) ++
            "\n"])) ∧
      (∀ value₂ : Nat,
        TeamCityOutput.reportProgress st filename stage value =
          TeamCityOutput.reportProgress st filename stage value₂)) ∧
    (∀ (st : TeamCityOutput.State) (filename stage : String) (v₁ v₂ : Nat),
      ¬ (st.latestProgressFile = filename ∧ st.latestProgressStage = stage) →
      (TeamCityOutput.runProgress st
          [(filename, stage, v₁), (filename, stage, v₂)]).2.length = 1) ∧
    (∀ (st : TeamCityOutput.State) (f₁ s₁ f₂ s₂ : String) (v₁ v₂ : Nat),
      ¬ (st.latestProgressFile = f₁ ∧ st.latestProgressStage = s₁) →
      ¬ (f₁ = f₂ ∧ s₁ = s₂) →
      (TeamCityOutput.runProgress st [(f₁, s₁, v₁), (f₂, s₂, v₂)]).2.length = 2) := by
  refine ⟨fun st filename stage value => ⟨fun h => ?_, fun h => ?_, fun value₂ => rfl⟩,
    fun st filename stage v₁ v₂ h => ?_, fun st f₁ s₁ f₂ s₂ v₁ v₂ h₁ h₂ => ?_⟩
  · simp [TeamCityOutput.reportProgress, h]
  · simp [TeamCityOutput.reportProgress, h]
  · simp [TeamCityOutput.runProgress, TeamCityOutput.reportProgress, h]
  · simp [TeamCityOutput.runProgress, TeamCityOutput.reportProgress, h₁, h₂]

/-- Witness for C4 at the spec's concrete progress sequences, starting
from a freshly constructed sink. -/
theorem reportProgress_spec_witness :
    (TeamCityOutput.runProgress TeamCityOutput.initState
        [("a.cpp", "parse", 0), ("a.cpp", "parse", 1)]).2.length = 1 ∧
    (TeamCityOutput.runProgress TeamCityOutput.initState
        [("a.cpp", "parse", 0), ("a.cpp", "check", 0)]).2.length = 2 ∧
    (TeamCityOutput.runProgress TeamCityOutput.initState
        [("a.cpp", "parse", 0), ("b.cpp", "parse", 0)]).2.length = 2 :=
  ⟨reportProgress_spec.2.1 TeamCityOutput.initState "a.cpp" "parse" 0 1 (by decide),
   reportProgress_spec.2.2 TeamCityOutput.initState "a.cpp" "parse" "a.cpp" "check" 0 0
     (by decide) (by decide),
   reportProgress_spec.2.2 TeamCityOutput.initState "a.cpp" "parse" "b.cpp" "parse" 0 0
     (by decide) (by decide)⟩

lemma serialize_mem_after_reportErr (settings : Settings) (st : TeamCityOutput.State)
    (msg : ErrorMessage) :
    msg.serialize ∈ (TeamCityOutput.reportErr settings st msg).1.errorList := by
  by_cases h : msg.serialize ∈ st.errorList <;> simp [TeamCityOutput.reportErr, h]

lemma errorList_mono (settings : Settings) (msgs : List ErrorMessage)
    (st : TeamCityOutput.State) (s : String) (h : s ∈ st.errorList) :
    s ∈ (TeamCityOutput.runErr settings st msgs).1.errorList := by
  induction msgs generalizing st with
  | nil => exact h
  | cons m rest ih =>
    simp only [TeamCityOutput.runErr]
    apply ih
    by_cases hm : m.serialize ∈ st.errorList <;>
      simp [TeamCityOutput.reportErr, hm, h]

lemma runErr_append (settings : Settings) (st : TeamCityOutput.State)
    (l₁ l₂ : List ErrorMessage) :
    TeamCityOutput.runErr settings st (l₁ ++ l₂) =
      ((TeamCityOutput.runErr settings (TeamCityOutput.runErr settings st l₁).1 l₂).1,
       (TeamCityOutput.runErr settings st l₁).2 ++
         (TeamCityOutput.runErr settings (TeamCityOutput.runErr settings st l₁).1 l₂).2) := by
  induction l₁ generalizing st with
  | nil => simp [TeamCityOutput.runErr]
  | cons m rest ih => simp [TeamCityOutput.runErr, ih]

/-- C3: a `reportErr` call whose canonical serialization is already in the
seen set is a no-op that emits nothing; in any call sequence a later call
whose serialization equals that of an earlier one contributes no line, so
only the first of any identically-serializing calls produces an
inspection line, and reporting the same diagnostic twice in sequence
produces exactly one inspection line. -/
theorem reportErr_dedup (settings : Settings) (st : TeamCityOutput.State)
    (msg : ErrorMessage) :
    (msg.serialize ∈ st.errorList →
      TeamCityOutput.reportErr settings st msg = (st, [])) ∧
    (∀ msg₂ : ErrorMessage, msg₂.serialize = msg.serialize →
      (TeamCityOutput.runErr settings st [msg, msg₂]).2 =
        (TeamCityOutput.runErr settings st [msg]).2) ∧
    (msg.serialize ∉ st.errorList →
      (TeamCityOutput.runErr settings st [msg, msg]).2.length = 1) ∧
    (∀ (pre mid : List ErrorMessage) (msg₂ : ErrorMessage),
      msg₂.serialize = msg.serialize →
      (TeamCityOutput.runErr settings st (pre ++ [msg] ++ mid ++ [msg₂])).2 =
        (TeamCityOutput.runErr settings st (pre ++ [msg] ++ mid)).2) := by
  refine ⟨fun h => ?_, fun msg₂ hser => ?_, fun h => ?_, fun pre mid msg₂ hser => ?_⟩
  · simp [TeamCityOutput.reportErr, h]
  · by_cases h : msg.serialize ∈ st.errorList
    · simp [TeamCityOutput.runErr, TeamCityOutput.reportErr, h, hser]
    · simp [TeamCityOutput.runErr, TeamCityOutput.reportErr, h, hser]
  · simp [TeamCityOutput.runErr, TeamCityOutput.reportErr, h]
  · have h₁ : msg.serialize ∈
        (TeamCityOutput.runErr settings st (pre ++ [msg])).1.errorList := by
      rw [runErr_append]
      simp only [TeamCityOutput.runErr]
      exact serialize_mem_after_reportErr settings _ msg
    have h₂ : msg.serialize ∈
        (TeamCityOutput.runErr settings st (pre ++ [msg] ++ mid)).1.errorList := by
      rw [runErr_append settings st (pre ++ [msg]) mid]
      exact errorList_mono settings mid _ _ h₁
    rw [runErr_append settings st (pre ++ [msg] ++ mid) [msg₂]]
    have h₂' : msg.serialize ∈
        (TeamCityOutput.runErr settings st (pre ++ msg :: mid)).1.errorList := by
      simpa [List.append_assoc] using h₂
    simp [TeamCityOutput.runErr, TeamCityOutput.reportErr, hser, h₂']

/-- Witness for C3 at a concrete diagnostic: a duplicate is a no-op,
reporting the same diagnostic twice from a fresh sink emits one line, and
a later duplicate in a longer sequence adds no line. -/
theorem reportErr_dedup_witness :
    (TeamCityOutput.reportErr ⟨false, []⟩
        ⟨"", "", [(⟨"id1", "s", "v", [], "f", 0, false, Severity.error⟩ :
          ErrorMessage).serialize]⟩
        ⟨"id1", "s", "v", [], "f", 0, false, Severity.error⟩ =
      (⟨"", "", [(⟨"id1", "s", "v", [], "f", 0, false, Severity.error⟩ :
          ErrorMessage).serialize]⟩, [])) ∧
    (TeamCityOutput.runErr ⟨false, []⟩ TeamCityOutput.initState
        [⟨"id1", "s", "v", [], "f", 0, false, Severity.error⟩,
         ⟨"id1", "s", "v", [], "f", 0, false, Severity.error⟩]).2.length = 1 ∧
    (TeamCityOutput.runErr ⟨false, []⟩ TeamCityOutput.initState
        ([] ++ [⟨"id1", "s", "v", [], "f", 0, false, Severity.error⟩] ++
          [⟨"id2", "s", "v", [], "f", 0, false, Severity.warning⟩] ++
          [⟨"id1", "s", "v", [], "f", 0, false, Severity.error⟩])).2 =
      (TeamCityOutput.runErr ⟨false, []⟩ TeamCityOutput.initState
        ([] ++ [⟨"id1", "s", "v", [], "f", 0, false, Severity.error⟩] ++
          [⟨"id2", "s", "v", [], "f", 0, false, Severity.warning⟩])).2 :=
  ⟨(reportErr_dedup ⟨false, []⟩ _ _).1 (by decide),
   (reportErr_dedup ⟨false, []⟩ _ _).2.2.1 (by decide),
   (reportErr_dedup ⟨false, []⟩ TeamCityOutput.initState
      ⟨"id1", "s", "v", [], "f", 0, false, Severity.error⟩).2.2.2 []
      [⟨"id2", "s", "v", [], "f", 0, false, Severity.warning⟩]
      ⟨"id1", "s", "v", [], "f", 0, false, Severity.error⟩ rfl⟩

/-- The file chosen by `reportErr` before normalization: the primary stack
entry's file, or the fallback `file0` when the call stack is empty. -/
def primaryFile (msg : ErrorMessage) : String :=
  match msg.callStack with
  | [] => msg.file0
  | stackEntry :: _ => stackEntry.getfile

lemma mapFind?_file_raw (settings : Settings) (msg : ErrorMessage) :
    mapFind? "file" (TeamCityOutput.inspectionValuesRaw settings msg) =
      some (primaryFile msg) := by
  obtain ⟨i, sm, vm, cs, f0, cw, inc, sev⟩ := msg
  simp only [TeamCityOutput.inspectionValuesRaw, primaryFile]
  cases cs <;> split_ifs <;> simp [mapFind?_insert]

lemma mapFind?_line_raw (settings : Settings) (msg : ErrorMessage) :
    mapFind? "line" (TeamCityOutput.inspectionValuesRaw settings msg) =
      match msg.callStack with
      | [] => Option.none
      | stackEntry :: _ => Option.some (toString stackEntry.line) := by
  obtain ⟨i, sm, vm, cs, f0, cw, inc, sev⟩ := msg
  simp only [TeamCityOutput.inspectionValuesRaw]
  cases cs <;> split_ifs <;> simp [mapFind?_insert, mapFind?]

lemma mapFind?_column_raw (settings : Settings) (msg : ErrorMessage) :
    mapFind? "column" (TeamCityOutput.inspectionValuesRaw settings msg) =
      match msg.callStack with
      | [] => Option.none
      | stackEntry :: _ => Option.some (toString stackEntry.col) := by
  obtain ⟨i, sm, vm, cs, f0, cw, inc, sev⟩ := msg
  simp only [TeamCityOutput.inspectionValuesRaw]
  cases cs <;> split_ifs <;> simp [mapFind?_insert, mapFind?]

lemma mapFind?_SEVERITY_raw (settings : Settings) (msg : ErrorMessage) :
    mapFind? "SEVERITY" (TeamCityOutput.inspectionValuesRaw settings msg) =
      Option.none := by
  obtain ⟨i, sm, vm, cs, f0, cw, inc, sev⟩ := msg
  simp only [TeamCityOutput.inspectionValuesRaw]
  cases cs <;> split_ifs <;> simp [mapFind?_insert, mapFind?]

lemma mapFind?_base_of_ne_file (settings : Settings) (msg : ErrorMessage)
    (k : String) (hk : ¬ k = "file") :
    mapFind? k (TeamCityOutput.inspectionValuesBase settings msg) =
      mapFind? k (TeamCityOutput.inspectionValuesRaw settings msg) := by
  simp only [TeamCityOutput.inspectionValuesBase]
  split_ifs <;> simp [mapFind?_insert, hk]

lemma mapFind?_file_base (settings : Settings) (msg : ErrorMessage) :
    mapFind? "file" (TeamCityOutput.inspectionValuesBase settings msg) =
      some (if primaryFile msg = "" then "<cppcheck>"
        else "./" ++
          (if Path.isAbsolute (Path.fromNativeSeparators (primaryFile msg)) then
            Path.getRelativePath (Path.fromNativeSeparators (primaryFile msg))
              settings.basePaths
          else Path.fromNativeSeparators (primaryFile msg))) := by
  have hfile := mapFind?_file_raw settings msg
  simp only [TeamCityOutput.inspectionValuesBase, mapFind, hfile, Option.getD_some]
  split_ifs with h <;> simp [mapFind?_insert, h]

lemma mapFind?_values_of_ne_SEVERITY (settings : Settings) (msg : ErrorMessage)
    (k : String) (hk : ¬ k = "SEVERITY") :
    mapFind? k (TeamCityOutput.inspectionValues settings msg) =
      mapFind? k (TeamCityOutput.inspectionValuesBase settings msg) := by
  simp only [TeamCityOutput.inspectionValues]
  cases severityAttr msg.severity <;> simp [mapFind?_insert, hk]

lemma mapFind?_SEVERITY_values (settings : Settings) (msg : ErrorMessage) :
    mapFind? "SEVERITY" (TeamCityOutput.inspectionValues settings msg) =
      severityAttr msg.severity := by
  simp only [TeamCityOutput.inspectionValues]
  cases hsev : severityAttr msg.severity with
  | none =>
    rw [mapFind?_base_of_ne_file settings msg "SEVERITY" (by decide),
      mapFind?_SEVERITY_raw]
  | some sv => simp [mapFind?_insert]

/-- C7: for a non-duplicate diagnostic the emitted inspection line is
built from the attribute map, whose `SEVERITY` attribute is determined
from the severity exactly by the fixed switch: `error ↦ "ERROR"`,
`warning ↦ "WARNING"`, `information`/`debug`/`style ↦ "INFO"`,
`performance`/`portability ↦ "WEAK WARNING"`, and for `none` (and the
switch's `default` case) the attribute is omitted entirely, without any
failure — every severity still yields a line. -/
theorem reportErr_severity_mapping (settings : Settings) (st : TeamCityOutput.State)
    (msg : ErrorMessage) (h : msg.serialize ∉ st.errorList) :
    (TeamCityOutput.reportErr settings st msg).2 =
      [TeamCityOutput.formatServiceMessageMap "inspection"
        (TeamCityOutput.inspectionValues settings msg) ++ "\n"] ∧
    mapFind? "SEVERITY" (TeamCityOutput.inspectionValues settings msg) =
      severityAttr msg.severity ∧
    severityAttr Severity.error = Option.some "ERROR" ∧
    severityAttr Severity.warning = Option.some "WARNING" ∧
    severityAttr Severity.information = Option.some "INFO" ∧
    severityAttr Severity.debug = Option.some "INFO" ∧
    severityAttr Severity.style = Option.some "INFO" ∧
    severityAttr Severity.performance = Option.some "WEAK WARNING" ∧
    severityAttr Severity.portability = Option.some "WEAK WARNING" ∧
    severityAttr Severity.none = Option.none := by
  exact ⟨by simp [TeamCityOutput.reportErr, h], mapFind?_SEVERITY_values settings msg,
    rfl, rfl, rfl, rfl, rfl, rfl, rfl, rfl⟩

/-- Witness for C7 at concrete diagnostics: a `warning` yields
`SEVERITY='WARNING'` and `none` yields no `SEVERITY` attribute. -/
theorem reportErr_severity_mapping_witness :
    mapFind? "SEVERITY" (TeamCityOutput.inspectionValues ⟨false, []⟩
        ⟨"id1", "s", "v", [], "", 0, false, Severity.warning⟩) =
      Option.some "WARNING" ∧
    mapFind? "SEVERITY" (TeamCityOutput.inspectionValues ⟨false, []⟩
        ⟨"id2", "s", "v", [], "", 0, false, Severity.none⟩) = Option.none :=
  ⟨((reportErr_severity_mapping ⟨false, []⟩ TeamCityOutput.initState
      ⟨"id1", "s", "v", [], "", 0, false, Severity.warning⟩ (by decide)).2.1).trans rfl,
   ((reportErr_severity_mapping ⟨false, []⟩ TeamCityOutput.initState
      ⟨"id2", "s", "v", [], "", 0, false, Severity.none⟩ (by decide)).2.1).trans rfl⟩

/-- C8: the `file` attribute of the inspection map is the primary (first)
frame's file when frames exist — together with `line` and `column` as
decimal strings — and the fallback `file0` with no `line`/`column`
attributes otherwise; an empty chosen file becomes the literal sentinel
`<cppcheck>` with all path steps skipped, and a non-empty one has
separators normalized to forward slashes, an absolute path rewritten
relative to the configured base paths, and `./` prefixed. -/
theorem reportErr_file_attribute (settings : Settings) (msg : ErrorMessage) :
    mapFind? "file" (TeamCityOutput.inspectionValues settings msg) =
      Option.some (if primaryFile msg = "" then "<cppcheck>"
        else "./" ++
          (if Path.isAbsolute (Path.fromNativeSeparators (primaryFile msg)) then
            Path.getRelativePath (Path.fromNativeSeparators (primaryFile msg))
              settings.basePaths
          else Path.fromNativeSeparators (primaryFile msg))) ∧
    (msg.callStack = [] →
      primaryFile msg = msg.file0 ∧
      mapFind? "line" (TeamCityOutput.inspectionValues settings msg) = Option.none ∧
      mapFind? "column" (TeamCityOutput.inspectionValues settings msg) = Option.none) ∧
    (∀ stackEntry rest, msg.callStack = stackEntry :: rest →
      primaryFile msg = stackEntry.getfile ∧
      mapFind? "line" (TeamCityOutput.inspectionValues settings msg) =
        Option.some (toString stackEntry.line) ∧
      mapFind? "column" (TeamCityOutput.inspectionValues settings msg) =
        Option.some (toString stackEntry.col)) := by
  refine ⟨?_, fun hnil => ⟨by simp [primaryFile, hnil], ?_, ?_⟩,
    fun stackEntry rest hcons => ⟨by simp [primaryFile, hcons], ?_, ?_⟩⟩
  · rw [mapFind?_values_of_ne_SEVERITY settings msg "file" (by decide), mapFind?_file_base]
  · rw [mapFind?_values_of_ne_SEVERITY settings msg "line" (by decide),
      mapFind?_base_of_ne_file settings msg "line" (by decide), mapFind?_line_raw, hnil]
  · rw [mapFind?_values_of_ne_SEVERITY settings msg "column" (by decide),
      mapFind?_base_of_ne_file settings msg "column" (by decide), mapFind?_column_raw, hnil]
  · rw [mapFind?_values_of_ne_SEVERITY settings msg "line" (by decide),
      mapFind?_base_of_ne_file settings msg "line" (by decide), mapFind?_line_raw, hcons]
  · rw [mapFind?_values_of_ne_SEVERITY settings msg "column" (by decide),
      mapFind?_base_of_ne_file settings msg "column" (by decide), mapFind?_column_raw, hcons]

/-- Witness for C8: an absolute path under base directory `/proj` is
rewritten to `./src/a.cpp` with decimal line and column attributes, and a
no-frames no-fallback diagnostic yields the `<cppcheck>` sentinel. -/
theorem reportErr_file_attribute_witness :
    mapFind? "file" (TeamCityOutput.inspectionValues ⟨false, ["/proj"]⟩
        ⟨"id1", "s", "v", [⟨"/proj/src/a.cpp", 10, 2⟩], "", 0, false, Severity.error⟩) =
      Option.some "./src/a.cpp" ∧
    mapFind? "line" (TeamCityOutput.inspectionValues ⟨false, ["/proj"]⟩
        ⟨"id1", "s", "v", [⟨"/proj/src/a.cpp", 10, 2⟩], "", 0, false, Severity.error⟩) =
      Option.some "10" ∧
    mapFind? "column" (TeamCityOutput.inspectionValues ⟨false, ["/proj"]⟩
        ⟨"id1", "s", "v", [⟨"/proj/src/a.cpp", 10, 2⟩], "", 0, false, Severity.error⟩) =
      Option.some "2" ∧
    mapFind? "file" (TeamCityOutput.inspectionValues ⟨false, []⟩
        ⟨"id2", "s", "v", [], "", 0, false, Severity.none⟩) =
      Option.some "<cppcheck>" :=
  ⟨((reportErr_file_attribute ⟨false, ["/proj"]⟩
      ⟨"id1", "s", "v", [⟨"/proj/src/a.cpp", 10, 2⟩], "", 0, false,
        Severity.error⟩).1).trans (by decide),
   ((reportErr_file_attribute ⟨false, ["/proj"]⟩
      ⟨"id1", "s", "v", [⟨"/proj/src/a.cpp", 10, 2⟩], "", 0, false,
        Severity.error⟩).2.2 ⟨"/proj/src/a.cpp", 10, 2⟩ [] rfl).2.1.trans (by decide),
   ((reportErr_file_attribute ⟨false, ["/proj"]⟩
      ⟨"id1", "s", "v", [⟨"/proj/src/a.cpp", 10, 2⟩], "", 0, false,
        Severity.error⟩).2.2 ⟨"/proj/src/a.cpp", 10, 2⟩ [] rfl).2.2.trans (by decide),
   ((reportErr_file_attribute ⟨false, []⟩
      ⟨"id2", "s", "v", [], "", 0, false, Severity.none⟩).1).trans (by decide)⟩
